import Mathlib

/-!
Shallow embedding of the rate-limiting ticket queue system
(app/models/job_model.py, app/services/*.py, app/controllers/job_controller.py,
app/worker/worker.py), with theorems checking the specification's claims.

Machine integers of the source are modelled as Nat (counters, ids) and Int
(timestamps, measured in seconds); the SQLAlchemy job table is modelled as a
list of records plus an auto-increment counter; Python dicts are modelled as
association lists; raised HTTPExceptions are modelled as an Option String
carrying the exception detail.
-/

namespace TicketQueue

/-- A row of the jobs table (app/models/job_model.py, class Job).
The bookkeeping columns created_at / updated_at are not modelled: no claim
mentions them and no core logic reads them. -/
structure Job where
  id : Nat
  user_id : String
  payload : String
  idempotency_key : String
  state : String
  result : Option String := none
  error_message : Option String := none
  last_served : Option Int := none
deriving Repr, DecidableEq

/-- The job store: the rows of the jobs table together with the next
auto-increment primary key value. -/
structure JobStore where
  jobs : List Job
  nextId : Nat
deriving Repr, DecidableEq

/-- app/services/job_service.py, create_new_job: insert a fresh row with
state "queued"; the database assigns the next id. -/
def create_new_job (s : JobStore) (user_id payload idempotency_key : String) :
    Job × JobStore :=
  let new_job : Job :=
    { id := s.nextId
      user_id := user_id
      payload := payload
      idempotency_key := idempotency_key
      state := "queued" }
  (new_job, { jobs := s.jobs ++ [new_job], nextId := s.nextId + 1 })

/-- Row update by primary key, the effect of mutating a mapped object and
committing: every row whose id matches is replaced by f applied to it. -/
def updateJob (s : JobStore) (jid : Nat) (f : Job → Job) : JobStore :=
  { s with jobs := s.jobs.map (fun j => if j.id = jid then f j else j) }

/-- app/services/job_service.py, get_job_by_id (first row with this id). -/
def get_job_by_id (s : JobStore) (jid : Nat) : Option Job :=
  s.jobs.find? (fun j => j.id == jid)

/-- app/services/job_service.py, mark_job_running: set state to "running". -/
def mark_job_running (s : JobStore) (jid : Nat) : JobStore :=
  updateJob s jid (fun j => { j with state := "running" })

/-- app/services/job_service.py, mark_job_done: set state to "done", record
the result and stamp last_served with the current time. -/
def mark_job_done (s : JobStore) (jid : Nat) (result : String) (now : Int) :
    JobStore :=
  updateJob s jid
    (fun j => { j with state := "done", result := some result,
                       last_served := some now })

/-- app/services/job_service.py, mark_job_failed: set state to "failed" and
record the error message.  The source does not touch last_served here. -/
def mark_job_failed (s : JobStore) (jid : Nat) (error_message : String) :
    JobStore :=
  updateJob s jid
    (fun j => { j with state := "failed", error_message := some error_message })

/-- app/services/job_service.py, reset_running_jobs_on_restart: every row in
state "running" is set back to "queued"; no other column is written. -/
def reset_running_jobs_on_restart (s : JobStore) : JobStore :=
  let requeue := fun (j : Job) =>
    if j.state = "running" then { j with state := "queued" } else j
  { s with jobs := s.jobs.map requeue }

/-- app/services/idempotency.py, check_idempotency: compute the md5 hex digest
of the payload and return the first job with that idempotency_key, together
with the digest.  The digest function (hashlib.md5(...).hexdigest(), an
external library call) is kept abstract as a parameter. -/
def check_idempotency (digest : String → String) (s : JobStore)
    (payload : String) : Option Job × String :=
  let idem_key := digest payload
  (s.jobs.find? (fun j => j.idempotency_key == idem_key), idem_key)

/-- Strict comparison of last_served values under SQLite ascending order,
where NULL sorts before every non-NULL value. -/
def lsLtB : Option Int → Option Int → Bool
  | none, none => false
  | none, some _ => true
  | some _, none => false
  | some x, some y => decide (x < y)

/-- The ORDER BY key of app/services/scheduler.py: last_served ascending
(NULL first), then id ascending.  schedBefore a b holds when a sorts strictly
before b. -/
def schedBefore (a b : Job) : Bool :=
  lsLtB a.last_served b.last_served ||
    (decide (a.last_served = b.last_served) && decide (a.id < b.id))

/-- One step of scanning for the first row under the scheduler's order. -/
def schedStep (acc : Option Job) (j : Job) : Option Job :=
  match acc with
  | none => some j
  | some b => if schedBefore j b then some j else some b

/-- First element of a list of jobs under the scheduler's order (the effect
of ORDER BY ... LIMIT 1). -/
def minBySched (l : List Job) : Option Job :=
  l.foldl schedStep none

/-- app/services/scheduler.py, pick_next_job: among rows with
state = "queued", the first under (last_served ASC NULLS FIRST, id ASC). -/
def pick_next_job (s : JobStore) : Option Job :=
  minBySched (s.jobs.filter (fun j => j.state == "queued"))

/-- Lookup in a Python dict modelled as an association list, with default 0
(self.user_counters.get(user_id, 0)). -/
def getCount (m : List (String × Nat)) (k : String) : Nat :=
  (Option.map (fun p => p.2) (m.find? (fun p => p.1 == k))).getD 0

/-- Python dict assignment m[k] = v: replace the binding in place if the key
exists, otherwise append it. -/
def setEntry : List (String × Nat) → String → Nat → List (String × Nat)
  | [], k, v => [(k, v)]
  | (k1, v1) :: rest, k, v =>
      if k1 = k then (k, v) :: rest else (k1, v1) :: setEntry rest k v

/-- app/services/rate_limiter.py, class FixedWindowRateLimiter: its fields.
Timestamps are seconds as Int; the window is a duration in seconds. -/
structure RateLimiter where
  global_limit : Nat
  user_limit : Nat
  window : Int
  global_count : Nat
  global_window_start : Int
  user_counters : List (String × Nat)
  user_window_start : List (String × Int)
deriving Repr, DecidableEq

/-- FixedWindowRateLimiter.__init__: counters empty, window start stamped with
the construction time. -/
def initLimiter (global_limit user_limit : Nat) (window now : Int) :
    RateLimiter :=
  { global_limit := global_limit
    user_limit := user_limit
    window := window
    global_count := 0
    global_window_start := now
    user_counters := []
    user_window_start := [] }

/-- FixedWindowRateLimiter._reset_window_if_needed: when the window has
elapsed, restart it at now, zero the global counter and clear both per-owner
maps. -/
def reset_window_if_needed (L : RateLimiter) (now : Int) : RateLimiter :=
  if now - L.global_window_start ≥ L.window then
    { L with global_window_start := now
             global_count := 0
             user_counters := []
             user_window_start := [] }
  else L

/-- FixedWindowRateLimiter._increment_user: bump the owner's counter and
record the owner's first-seen time in the window if not already present. -/
def increment_user (L : RateLimiter) (user_id : String) (now : Int) :
    RateLimiter :=
  let L1 := { L with user_counters := setEntry L.user_counters user_id
                       (getCount L.user_counters user_id + 1) }
  if (L1.user_window_start.find? (fun p => p.1 == user_id)).isSome then L1
  else { L1 with user_window_start := L1.user_window_start ++ [(user_id, now)] }

/-- Detail string of the HTTPException raised on global-limit rejection. -/
def global_limit_detail : String :=
  "Too many requests (global limit). Please try again later."

/-- Detail string of the HTTPException raised on per-user rejection. -/
def user_limit_detail : String :=
  "Too many requests for this user. Please try again later."

/-- FixedWindowRateLimiter.check: reset the window if elapsed, then reject on
the global limit, then on the per-user limit, else admit and increment both
counters.  The first component is the detail of the raised HTTPException, or
none when the call is admitted; the second is the limiter state afterwards
(the window reset is a mutation, so it persists even on rejection). -/
def check (L : RateLimiter) (user_id : String) (now : Int) :
    Option String × RateLimiter :=
  let L1 := reset_window_if_needed L now
  if L1.global_count ≥ L1.global_limit then
    (some global_limit_detail, L1)
  else if getCount L1.user_counters user_id ≥ L1.user_limit then
    (some user_limit_detail, L1)
  else
    (none, increment_user { L1 with global_count := L1.global_count + 1 }
             user_id now)

/-- The limiter state after k sequential check calls by one owner, results
discarded (each call's mutation persists whether it admitted or raised). -/
def checkN (u : String) (now : Int) : Nat → RateLimiter → RateLimiter
  | 0, L => L
  | k + 1, L => (check (checkN u now k L) u now).2

/-- The JobStatusResponse schema returned by the submit_job endpoint, with
exactly the fields app/schemas/job_schema.py declares: job_id, state, result,
error_message.  The controller also passes is_duplicate and idempotency_key
keyword arguments, but pydantic's default configuration ignores keywords for
undeclared fields and the route's response_model filters to the declared
ones, so neither ever appears in the endpoint's response. -/
structure JobStatusResponse where
  job_id : Nat
  state : String
  result : Option String
  error_message : Option String
deriving Repr, DecidableEq

/-- app/controllers/job_controller.py, submit_job: resolve idempotency first
and return the existing job's view; otherwise consult the rate limiter,
create the job regardless, and if the limiter raised, mark the new job
failed with the exception detail as its error.  Returns the response
together with the job store and limiter afterwards.  The is_duplicate=True
(resp. False) keyword the controller passes is dropped by the schema (see
JobStatusResponse) and therefore does not occur in the response. -/
def submit_job (digest : String → String) (s : JobStore) (L : RateLimiter)
    (user_id payload : String) (now : Int) :
    JobStatusResponse × JobStore × RateLimiter :=
  match check_idempotency digest s payload with
  | (some existing_job, _) =>
      ({ job_id := existing_job.id
         state := existing_job.state
         result := existing_job.result
         error_message := existing_job.error_message }, s, L)
  | (none, idem_key) =>
      let (rate_limit_error, L1) := check L user_id now
      let (job, s1) := create_new_job s user_id payload idem_key
      match rate_limit_error with
      | some err =>
          let s2 := mark_job_failed s1 job.id err
          ({ job_id := job.id
             state := "failed"
             result := none
             error_message := some err }, s2, L1)
      | none =>
          ({ job_id := job.id
             state := job.state
             result := job.result
             error_message := job.error_message }, s1, L1)

/-- What the external world does to one worker iteration: either no exception
is raised, or an exception (with the given message) is raised by
pick_next_job, or one is raised during execution, after the job was marked
running but before it was marked done. -/
inductive WorkerEvent where
  | ok : WorkerEvent
  | raiseAtPick : String → WorkerEvent
  | raiseDuringExec : String → WorkerEvent
deriving Repr, DecidableEq

/-- The state carried across iterations of run_worker: the job store and the
Python local variable job, which is function-scoped: none means it has never
been assigned (reading it raises NameError), some none means it holds None,
some (some jid) means it holds the job with id jid. -/
structure WorkerState where
  store : JobStore
  jobVar : Option (Option Nat)
deriving Repr, DecidableEq

/-- Whether the iteration fell off the bottom of the loop body normally or
escaped it with an uncaught exception, crashing run_worker: a NameError from
reading the never-assigned local job, or the error raised when the except
block operates on a stale ORM instance detached from the previous
iteration's closed session (db.commit persists nothing for it and db.refresh
raises, leaving the store unchanged). -/
inductive IterOutcome where
  | next : IterOutcome
  | crashNameError : IterOutcome
  | crashDetachedInstance : IterOutcome
deriving Repr, DecidableEq

/-- One iteration of the while-True loop of app/worker/worker.py, run_worker.
On the normal path the picked job is marked running then done with the
constant result string.  When pick_next_job raises, the except block runs
before job is assigned this iteration: if job was never assigned,
referencing it raises NameError and the loop crashes; if the stale value
from the previous iteration is None, the guard skips mark_job_failed and the
loop continues; if it holds the previous iteration's job, that ORM instance
is detached from its closed session, so mark_job_failed mutates it only in
memory, this session's commit persists nothing for it, and db.refresh raises
out of the except block — the loop crashes with the store unchanged. -/
def worker_iteration (ev : WorkerEvent) (ws : WorkerState) (now : Int) :
    WorkerState × IterOutcome :=
  match ev with
  | .ok =>
      match pick_next_job ws.store with
      | some j =>
          let s1 := mark_job_running ws.store j.id
          let s2 := mark_job_done s1 j.id "Job completed successfully" now
          ({ store := s2, jobVar := some (some j.id) }, .next)
      | none => ({ ws with jobVar := some none }, .next)
  | .raiseAtPick _ =>
      match ws.jobVar with
      | none => (ws, .crashNameError)
      | some none => (ws, .next)
      | some (some _) => (ws, .crashDetachedInstance)
  | .raiseDuringExec msg =>
      match pick_next_job ws.store with
      | some j =>
          let s1 := mark_job_running ws.store j.id
          ({ store := mark_job_failed s1 j.id msg,
             jobVar := some (some j.id) }, .next)
      | none => ({ ws with jobVar := some none }, .next)

/-- Well-formedness of the job store, maintained by the database: every
assigned primary key is below the auto-increment counter, and primary keys
are pairwise distinct. -/
def StoreWF (s : JobStore) : Prop :=
  (∀ j ∈ s.jobs, j.id < s.nextId) ∧
  s.jobs.Pairwise (fun a b => a.id ≠ b.id)

/-- First demo job: queued, never served. -/
def demoJ1 : Job :=
  { id := 1, user_id := "u1", payload := "a", idempotency_key := "ka",
    state := "queued" }

/-- Second demo job: queued, never served. -/
def demoJ2 : Job :=
  { id := 2, user_id := "u2", payload := "b", idempotency_key := "kb",
    state := "queued" }

/-- Third demo job: queued, never served. -/
def demoJ3 : Job :=
  { id := 3, user_id := "u3", payload := "c", idempotency_key := "kc",
    state := "queued" }

/-- Store with three queued jobs submitted in order. -/
def demoStore : JobStore := { jobs := [demoJ1, demoJ2, demoJ3], nextId := 4 }

/-- demoStore after the worker ran the first job to completion. -/
def demoAfter1 : JobStore :=
  mark_job_done (mark_job_running demoStore 1) 1 "Job completed successfully" 5

/-- demoAfter1 after the worker ran the second job to completion. -/
def demoAfter2 : JobStore :=
  mark_job_done (mark_job_running demoAfter1 2) 2 "Job completed successfully" 6

/-- Store at the moment restart recovery runs: two orphaned running jobs and
one queued job. -/
def recoveryStore : JobStore :=
  { jobs :=
      [{ demoJ1 with state := "running" },
       { demoJ2 with state := "running" },
       demoJ3],
    nextId := 4 }

/-- A limiter constructed with globalLimit = 0 (userLimit 5, window 10s,
started at time 0). -/
def c5Limiter : RateLimiter := initLimiter 0 5 10 0

/-- A job currently being executed by the worker. -/
def c8Job : Job :=
  { id := 1, user_id := "u1", payload := "a", idempotency_key := "ka",
    state := "running" }

/-- Store holding just the running job c8Job. -/
def c8Store : JobStore := { jobs := [c8Job], nextId := 2 }

/-- Empty job store, as at first process start. -/
def idleStore : JobStore := { jobs := [], nextId := 1 }

/-- The shared state the system's flows operate on: the job store (single
source of truth), the rate limiter's counters, and the worker's
function-scoped job variable. -/
structure SysState where
  store : JobStore
  limiter : RateLimiter
  jobVar : Option (Option Nat)
deriving Repr, DecidableEq

/-- One state-changing operation as the system performs it: a submission
(the controller's composition of check_idempotency, check_rate_limit,
create_new_job and mark_job_failed), one worker-loop iteration (scheduler
pick, mark_job_running and mark_job_done / mark_job_failed, under the given
exception event), or startup recovery (reset_running_jobs_on_restart). -/
inductive SysOp where
  | submitOp : String → String → Int → SysOp
  | workerStep : WorkerEvent → Int → SysOp
  | recovery : SysOp
deriving Repr, DecidableEq

/-- Whether an operation is the restart recovery. -/
def isRecovery : SysOp → Bool
  | .recovery => true
  | _ => false

/-- Effect of one system operation on the shared state. -/
def sysStep (digest : String → String) (op : SysOp) (st : SysState) :
    SysState :=
  match op with
  | .submitOp u p t =>
      let r := submit_job digest st.store st.limiter u p t
      { store := r.2.1, limiter := r.2.2, jobVar := st.jobVar }
  | .workerStep ev t =>
      let w := worker_iteration ev { store := st.store, jobVar := st.jobVar } t
      { store := w.1.store, limiter := st.limiter, jobVar := w.1.jobVar }
  | .recovery =>
      { st with store := reset_running_jobs_on_restart st.store }

/-- Effect of a sequence of system operations, first operation first. -/
def sysRun (digest : String → String) (ops : List SysOp) (st : SysState) :
    SysState :=
  ops.foldl (fun st1 op => sysStep digest op st1) st

/-- Per-row invariant of the data model: the state is one of the four legal
values, result and error are absent while queued or running, result is
present (and error absent) exactly in state done, and error is present (and
result absent) in state failed. -/
def stateInv (j : Job) : Prop :=
  (j.state = "queued" ∨ j.state = "running" ∨ j.state = "done" ∨
    j.state = "failed") ∧
  ((j.state = "queued" ∨ j.state = "running") →
    j.result = none ∧ j.error_message = none) ∧
  (j.state = "done" → j.result ≠ none ∧ j.error_message = none) ∧
  (j.state = "failed" → j.error_message ≠ none ∧ j.result = none)

/-- Store-level invariant: database well-formedness plus the per-row state
machine invariant for every row. -/
def SysInv (s : JobStore) : Prop :=
  StoreWF s ∧ ∀ j ∈ s.jobs, stateInv j

/-- The state transitions one system operation may perform on one job:
from queued anywhere forward along queued → running → done|failed (a single
worker iteration may cover several arrows), from running only forward — or
back to queued when (and only when) the operation is restart recovery — and
no transition at all out of done or failed. -/
def stepAllowed (recov : Bool) (a b : String) : Prop :=
  (a = "queued" → b = "queued" ∨ b = "running" ∨ b = "done" ∨
    b = "failed") ∧
  (a = "running" → b = "running" ∨ b = "done" ∨ b = "failed" ∨
    (b = "queued" ∧ recov = true)) ∧
  (a = "done" → b = "done") ∧
  (a = "failed" → b = "failed")

theorem forall2_map_self {α : Type} {R : α → α → Prop} (f : α → α)
    (h : ∀ a, R a (f a)) : ∀ l : List α, List.Forall₂ R l (l.map f)
  | [] => List.Forall₂.nil
  | a :: l => List.Forall₂.cons (h a) (forall2_map_self f h l)

/-- C7: Restart recovery, run once at process start before the Worker Loop
iterates, transitions every job with state = running back to queued while
changing no other field of those jobs (payload, fingerprint, result, error,
last_served all unchanged), leaves jobs in any other state untouched, and
neither deletes nor duplicates any job (the rows correspond one to one); in
particular, from J1 (running), J2 (running), J3 (queued), all three are
queued afterward. -/
theorem C7_restart_recovery :
    (∀ s : JobStore,
      (reset_running_jobs_on_restart s).nextId = s.nextId ∧
      List.Forall₂
        (fun j j1 =>
          j1.id = j.id ∧ j1.user_id = j.user_id ∧ j1.payload = j.payload ∧
          j1.idempotency_key = j.idempotency_key ∧ j1.result = j.result ∧
          j1.error_message = j.error_message ∧
          j1.last_served = j.last_served ∧
          j1.state = (if j.state = "running" then "queued" else j.state))
        s.jobs (reset_running_jobs_on_restart s).jobs) ∧
    (reset_running_jobs_on_restart recoveryStore).jobs.map
        (fun j => (j.id, j.state)) =
      [(1, "queued"), (2, "queued"), (3, "queued")] := by
  constructor
  · intro s
    refine ⟨rfl, ?_⟩
    show List.Forall₂ _ s.jobs (s.jobs.map _)
    apply forall2_map_self
    intro a
    by_cases h : a.state = "running" <;> simp [h]
  · rfl

/-- Closed instance of C7 at the three-job recovery store. -/
theorem C7_restart_recovery_witness :
    List.Forall₂
      (fun j j1 =>
        j1.id = j.id ∧ j1.user_id = j.user_id ∧ j1.payload = j.payload ∧
        j1.idempotency_key = j.idempotency_key ∧ j1.result = j.result ∧
        j1.error_message = j.error_message ∧
        j1.last_served = j.last_served ∧
        j1.state = (if j.state = "running" then "queued" else j.state))
      recoveryStore.jobs (reset_running_jobs_on_restart recoveryStore).jobs :=
  (C7_restart_recovery.1 recoveryStore).2

/-- C8, counterexample: marking the running job c8Job as failed records the
error and sets the state, but leaves last_served = none; the claim says the
transition stamps last_served = now, making it non-null on failed jobs. -/
theorem C8_last_served_counterexample :
    c8Job.state = "running" ∧
    get_job_by_id (mark_job_failed c8Store 1 "boom") 1 =
      some { c8Job with state := "failed", error_message := some "boom" } ∧
    Option.map Job.last_served
        (get_job_by_id (mark_job_failed c8Store 1 "boom") 1) = some none := by
  exact ⟨rfl, rfl, rfl⟩

/-- C8, amended: a running → failed transition records the error but leaves
last_served unchanged (so still null); only mark_job_done stamps
last_served = now, so last_served becomes non-null exactly through
transitions into done. -/
theorem C8_failed_leaves_last_served :
    (∀ (s : JobStore) (jid : Nat) (err : String),
      List.Forall₂
        (fun j j1 =>
          j1.last_served = j.last_served ∧ j1.result = j.result ∧
          j1.id = j.id ∧
          (j.id = jid → j1.state = "failed" ∧ j1.error_message = some err) ∧
          (j.id ≠ jid → j1 = j))
        s.jobs (mark_job_failed s jid err).jobs) ∧
    (∀ (s : JobStore) (jid : Nat) (res : String) (now : Int),
      List.Forall₂
        (fun j j1 =>
          j1.id = j.id ∧
          (j.id = jid →
            j1.state = "done" ∧ j1.result = some res ∧
            j1.last_served = some now) ∧
          (j.id ≠ jid → j1 = j))
        s.jobs (mark_job_done s jid res now).jobs) := by
  constructor
  · intro s jid err
    show List.Forall₂ _ s.jobs (s.jobs.map _)
    apply forall2_map_self
    intro a
    by_cases h : a.id = jid <;> simp [h]
  · intro s jid res now
    show List.Forall₂ _ s.jobs (s.jobs.map _)
    apply forall2_map_self
    intro a
    by_cases h : a.id = jid <;> simp [h]

/-- Closed instance of the amended C8 at the single running job store. -/
theorem C8_failed_leaves_last_served_witness :
    List.Forall₂
      (fun j j1 =>
        j1.last_served = j.last_served ∧ j1.result = j.result ∧
        j1.id = j.id ∧
        (j.id = 1 → j1.state = "failed" ∧ j1.error_message = some "boom") ∧
        (j.id ≠ 1 → j1 = j))
      c8Store.jobs (mark_job_failed c8Store 1 "boom").jobs :=
  C8_failed_leaves_last_served.1 c8Store 1 "boom"

/-- C9: at the failing input — the first worker iteration, with an exception
raised by pick_next_job before the local variable job was ever assigned —
the except block's reference to job raises NameError and the worker loop
crashes, instead of capturing the exception and continuing as claimed. -/
theorem C9_first_iteration_crash :
    worker_iteration (.raiseAtPick "store unavailable")
        { store := idleStore, jobVar := none } 0 =
      ({ store := idleStore, jobVar := none }, .crashNameError) := rfl


theorem reset_window_twice (L : RateLimiter) (now : Int)
    (h : L.window ≤ now - L.global_window_start) :
    reset_window_if_needed (reset_window_if_needed L now) now =
      reset_window_if_needed L now := by
  have hr : reset_window_if_needed L now =
      { L with global_window_start := now, global_count := 0,
               user_counters := [], user_window_start := [] } := by
    rw [reset_window_if_needed, if_pos h]
  rw [hr, reset_window_if_needed]
  split <;> rfl

/-- C5, counterexample: with globalLimit = 0 the owner alice is rejected in
the first window, and is rejected again on her next attempt after the window
has elapsed (time 10, window 10s), against the claim that every
previously-rejected owner is admitted again after a rollover. -/
theorem C5_zero_limit_counterexample :
    (check c5Limiter "alice" 0).1 = some global_limit_detail ∧
    (check c5Limiter "alice" 0).2.window ≤
      10 - (check c5Limiter "alice" 0).2.global_window_start ∧
    (check (check c5Limiter "alice" 0).2 "alice" 10).1 =
      some global_limit_detail := by
  refine ⟨rfl, by decide, rfl⟩

/-- C5, amended: for every admit call where now - windowStart ≥ W, the
limiter first resets — windowStart becomes now, the global counter becomes 0
and both per-owner maps are cleared — and the admit decision is taken on the
reset state; hence after a window elapses a previously-rejected owner is
admitted again on their next attempt, provided globalLimit and userLimit are
positive. -/
theorem C5_window_reset (L : RateLimiter) (u : String) (now : Int)
    (helapsed : L.window ≤ now - L.global_window_start) :
    reset_window_if_needed L now =
      { L with global_window_start := now, global_count := 0,
               user_counters := [], user_window_start := [] } ∧
    check L u now = check (reset_window_if_needed L now) u now ∧
    (0 < L.global_limit → 0 < L.user_limit → (check L u now).1 = none) := by
  have hreset : reset_window_if_needed L now =
      { L with global_window_start := now, global_count := 0,
               user_counters := [], user_window_start := [] } := by
    rw [reset_window_if_needed, if_pos helapsed]
  refine ⟨hreset, ?_, ?_⟩
  · show check L u now = check (reset_window_if_needed L now) u now
    rw [check, check, reset_window_twice L now helapsed]
  · intro hg hu
    rw [check, hreset]
    have h1 : ¬ ((0 : Nat) ≥ L.global_limit) := by omega
    have h2 : ¬ (getCount [] u ≥ L.user_limit) := by
      simp [getCount]; omega
    simp [h1, h2]

/-- Closed instance of the amended C5: a limiter with positive limits whose
window has elapsed admits the next attempt. -/
theorem C5_window_reset_witness :
    (check (initLimiter 2 2 10 0) "alice" 10).1 = none :=
  (C5_window_reset (initLimiter 2 2 10 0) "alice" 10 (by decide)).2.2
    (by decide) (by decide)

theorem lsLtB_irrefl (a : Option Int) : lsLtB a a = false := by
  cases a <;> simp [lsLtB]

theorem lsLtB_trans {a b c : Option Int} (h1 : lsLtB a b = true)
    (h2 : lsLtB b c = true) : lsLtB a c = true := by
  cases a <;> cases b <;> cases c <;> simp_all [lsLtB] <;> omega

theorem lsLtB_tricho (a b : Option Int) :
    lsLtB a b = true ∨ a = b ∨ lsLtB b a = true := by
  cases a <;> cases b <;> simp [lsLtB] <;> omega

theorem schedBefore_true_iff (a b : Job) :
    schedBefore a b = true ↔
      lsLtB a.last_served b.last_served = true ∨
      (a.last_served = b.last_served ∧ a.id < b.id) := by
  simp [schedBefore]

theorem schedBefore_false_iff (a b : Job) :
    schedBefore a b = false ↔
      lsLtB a.last_served b.last_served = false ∧
      (a.last_served = b.last_served → ¬ a.id < b.id) := by
  rw [← Bool.not_eq_true, schedBefore_true_iff]
  push_neg
  simp only [Bool.not_eq_true]

theorem schedBefore_self (a : Job) : schedBefore a a = false := by
  rw [schedBefore_false_iff]
  exact ⟨lsLtB_irrefl _, fun _ => Nat.lt_irrefl _⟩

theorem schedBefore_trans {a b c : Job} (h1 : schedBefore a b = true)
    (h2 : schedBefore b c = true) : schedBefore a c = true := by
  rw [schedBefore_true_iff] at h1 h2 ⊢
  rcases h1 with h1 | ⟨he1, hi1⟩
  · rcases h2 with h2 | ⟨he2, hi2⟩
    · exact Or.inl (lsLtB_trans h1 h2)
    · rw [he2] at h1
      exact Or.inl h1
  · rcases h2 with h2 | ⟨he2, hi2⟩
    · rw [← he1] at h2
      exact Or.inl h2
    · exact Or.inr ⟨he1.trans he2, Nat.lt_trans hi1 hi2⟩

theorem schedBefore_congr_left {a b : Job} (c : Job)
    (hls : a.last_served = b.last_served) (hid : a.id = b.id) :
    schedBefore a c = schedBefore b c := by
  simp [schedBefore, hls, hid]

theorem schedBefore_tricho (a b : Job) :
    schedBefore a b = true ∨
    (a.last_served = b.last_served ∧ a.id = b.id) ∨
    schedBefore b a = true := by
  rcases lsLtB_tricho a.last_served b.last_served with h | h | h
  · exact Or.inl ((schedBefore_true_iff a b).mpr (Or.inl h))
  · rcases Nat.lt_trichotomy a.id b.id with hi | hi | hi
    · exact Or.inl ((schedBefore_true_iff a b).mpr (Or.inr ⟨h, hi⟩))
    · exact Or.inr (Or.inl ⟨h, hi⟩)
    · exact Or.inr (Or.inr ((schedBefore_true_iff b a).mpr
        (Or.inr ⟨h.symm, hi⟩)))
  · exact Or.inr (Or.inr ((schedBefore_true_iff b a).mpr (Or.inl h)))

theorem foldl_schedStep_ne_none :
    ∀ (l : List Job) (b : Job), l.foldl schedStep (some b) ≠ none := by
  intro l
  induction l with
  | nil => intro b h; exact Option.noConfusion h
  | cons x xs ih =>
      intro b
      rw [List.foldl_cons]
      show xs.foldl schedStep (if schedBefore x b then some x else some b) ≠ none
      by_cases h : schedBefore x b = true
      · rw [if_pos h]; exact ih x
      · rw [if_neg h]; exact ih b

theorem foldl_schedStep_mem :
    ∀ (l : List Job) (b j : Job),
      l.foldl schedStep (some b) = some j → j = b ∨ j ∈ l := by
  intro l
  induction l with
  | nil =>
      intro b j h
      exact Or.inl (Option.some_injective _ h).symm
  | cons x xs ih =>
      intro b j h
      rw [List.foldl_cons] at h
      by_cases hx : schedBefore x b = true
      · have h2 : xs.foldl schedStep (some x) = some j := by
          rwa [show schedStep (some b) x = some x by simp [schedStep, hx]] at h
        rcases ih x j h2 with h3 | h3
        · exact Or.inr (h3 ▸ List.mem_cons_self x xs)
        · exact Or.inr (List.mem_cons_of_mem x h3)
      · have h2 : xs.foldl schedStep (some b) = some j := by
          rwa [show schedStep (some b) x = some b by simp [schedStep, hx]] at h
        rcases ih b j h2 with h3 | h3
        · exact Or.inl h3
        · exact Or.inr (List.mem_cons_of_mem x h3)

theorem foldl_schedStep_min :
    ∀ (l : List Job) (b j : Job),
      l.foldl schedStep (some b) = some j →
      schedBefore b j = false ∧ ∀ x ∈ l, schedBefore x j = false := by
  intro l
  induction l with
  | nil =>
      intro b j h
      have hb : j = b := (Option.some_injective _ h).symm
      subst hb
      exact ⟨schedBefore_self j, by intro x hx; cases hx⟩
  | cons x xs ih =>
      intro b j h
      rw [List.foldl_cons] at h
      by_cases hx : schedBefore x b = true
      · have h2 : xs.foldl schedStep (some x) = some j := by
          rwa [show schedStep (some b) x = some x by simp [schedStep, hx]] at h
        obtain ⟨hxj, hrest⟩ := ih x j h2
        have hbj : schedBefore b j = false := by
          by_contra hc
          have hbj2 : schedBefore b j = true := by
            revert hc; cases schedBefore b j <;> simp
          have : schedBefore x j = true := schedBefore_trans hx hbj2
          rw [hxj] at this
          exact Bool.false_ne_true this
        refine ⟨hbj, ?_⟩
        intro y hy
        rcases List.mem_cons.mp hy with hy | hy
        · exact hy ▸ hxj
        · exact hrest y hy
      · have hx2 : schedBefore x b = false := by
          revert hx; cases schedBefore x b <;> simp
        have h2 : xs.foldl schedStep (some b) = some j := by
          rwa [show schedStep (some b) x = some b by simp [schedStep, hx]] at h
        obtain ⟨hbj, hrest⟩ := ih b j h2
        have hxj : schedBefore x j = false := by
          by_contra hc
          have hxj2 : schedBefore x j = true := by
            revert hc; cases schedBefore x j <;> simp
          rcases schedBefore_tricho b x with hbx | ⟨hls, hid⟩ | hxb
          · have : schedBefore b j = true := schedBefore_trans hbx hxj2
            rw [hbj] at this
            exact Bool.false_ne_true this
          · have : schedBefore b j = schedBefore x j :=
              schedBefore_congr_left j hls hid
            rw [hbj, hxj2] at this
            exact Bool.false_ne_true this
          · rw [hx2] at hxb
            exact Bool.false_ne_true hxb
        refine ⟨hbj, ?_⟩
        intro y hy
        rcases List.mem_cons.mp hy with hy | hy
        · exact hy ▸ hxj
        · exact hrest y hy

theorem minBySched_eq_none_iff (l : List Job) :
    minBySched l = none ↔ l = [] := by
  cases l with
  | nil => simp [minBySched]
  | cons x xs =>
      simp only [minBySched, List.foldl_cons]
      constructor
      · intro h
        exact absurd h (foldl_schedStep_ne_none xs x)
      · intro h
        exact List.noConfusion h

theorem minBySched_mem {l : List Job} {j : Job}
    (h : minBySched l = some j) : j ∈ l := by
  cases l with
  | nil => exact Option.noConfusion h
  | cons x xs =>
      rw [minBySched, List.foldl_cons] at h
      rcases foldl_schedStep_mem xs x j h with h2 | h2
      · exact h2 ▸ List.mem_cons_self x xs
      · exact List.mem_cons_of_mem x h2

theorem minBySched_min {l : List Job} {j : Job}
    (h : minBySched l = some j) : ∀ x ∈ l, schedBefore x j = false := by
  cases l with
  | nil => exact Option.noConfusion h
  | cons x xs =>
      rw [minBySched, List.foldl_cons] at h
      obtain ⟨hx, hrest⟩ := foldl_schedStep_min xs x j h
      intro y hy
      rcases List.mem_cons.mp hy with hy | hy
      · exact hy ▸ hx
      · exact hrest y hy

/-- C3: the Scheduler returns, among all jobs with state = queued, one that
is minimal for (last_served ascending with null smallest, id ascending); it
returns none exactly when no job is queued; when all queued jobs have null
last_served it returns the smallest queued id, so jobs J1, J2, J3 submitted
in that order are yielded in ascending-id FIFO order, one at a time, as each
preceding job completes. -/
theorem C3_scheduler_order (s : JobStore) :
    (pick_next_job s = none ↔ ∀ j ∈ s.jobs, j.state ≠ "queued") ∧
    (∀ j, pick_next_job s = some j →
      j ∈ s.jobs ∧ j.state = "queued" ∧
      ∀ k ∈ s.jobs, k.state = "queued" →
        lsLtB j.last_served k.last_served = true ∨
        (j.last_served = k.last_served ∧ j.id ≤ k.id)) ∧
    ((∀ j ∈ s.jobs, j.state = "queued" → j.last_served = none) →
      ∀ j, pick_next_job s = some j →
        ∀ k ∈ s.jobs, k.state = "queued" → j.id ≤ k.id) ∧
    (pick_next_job demoStore = some demoJ1 ∧
     pick_next_job demoAfter1 = some demoJ2 ∧
     pick_next_job demoAfter2 = some demoJ3) := by
  have hmain : ∀ j, pick_next_job s = some j →
      j ∈ s.jobs ∧ j.state = "queued" ∧
      ∀ k ∈ s.jobs, k.state = "queued" →
        lsLtB j.last_served k.last_served = true ∨
        (j.last_served = k.last_served ∧ j.id ≤ k.id) := by
    intro j hj
    have hjf : j ∈ s.jobs.filter (fun j => j.state == "queued") :=
      minBySched_mem hj
    have hjq := List.mem_filter.mp hjf
    refine ⟨hjq.1, by simpa using hjq.2, ?_⟩
    intro k hk hkq
    have hkf : k ∈ s.jobs.filter (fun j => j.state == "queued") :=
      List.mem_filter.mpr ⟨hk, by simpa using hkq⟩
    have hnb : schedBefore k j = false := minBySched_min hj k hkf
    rw [schedBefore_false_iff] at hnb
    rcases lsLtB_tricho j.last_served k.last_served with h | h | h
    · exact Or.inl h
    · exact Or.inr ⟨h, Nat.le_of_not_lt (hnb.2 h.symm)⟩
    · rw [hnb.1] at h
      exact absurd h Bool.false_ne_true
  refine ⟨?_, hmain, ?_, rfl, rfl, rfl⟩
  · rw [pick_next_job, minBySched_eq_none_iff, List.filter_eq_nil]
    constructor
    · intro h j hj hq
      exact h j hj (by simpa using hq)
    · intro h j hj
      simpa using h j hj
  · intro hnull j hj k hk hkq
    obtain ⟨hjm, hjq, hmin⟩ := hmain j hj
    rcases hmin k hk hkq with h | h
    · rw [hnull j hjm hjq, hnull k hk hkq] at h
      exact absurd h (by simp [lsLtB])
    · exact h.2

/-- Closed instance of C3: at the three-job demo store the scheduler's pick
is a queued job minimal in the order. -/
theorem C3_scheduler_order_witness :
    demoJ1 ∈ demoStore.jobs ∧ demoJ1.state = "queued" ∧
    ∀ k ∈ demoStore.jobs, k.state = "queued" →
      lsLtB demoJ1.last_served k.last_served = true ∨
      (demoJ1.last_served = k.last_served ∧ demoJ1.id ≤ k.id) :=
  (C3_scheduler_order demoStore).2.1 demoJ1 rfl

theorem get_job_by_id_updateJob (s : JobStore) (jid k : Nat) (f : Job → Job)
    (hf : ∀ j, (f j).id = j.id) :
    get_job_by_id (updateJob s jid f) k =
      Option.map (fun j => if j.id = jid then f j else j)
        (get_job_by_id s k) := by
  show List.find? _ (s.jobs.map _) = _
  rw [List.find?_map]
  have hp : ((fun j : Job => j.id == k) ∘
      (fun j => if j.id = jid then f j else j)) = (fun j : Job => j.id == k) := by
    funext j
    by_cases h : j.id = jid <;> simp [h, hf]
  rw [hp]
  rfl

theorem find?_id_of_mem :
    ∀ (l : List Job), l.Pairwise (fun a b => a.id ≠ b.id) →
      ∀ j ∈ l, l.find? (fun x => x.id == j.id) = some j := by
  intro l
  induction l with
  | nil => intro _ j hj; cases hj
  | cons x xs ih =>
      intro hp j hj
      obtain ⟨hx, hxs⟩ := List.pairwise_cons.mp hp
      rcases List.mem_cons.mp hj with hj | hj
      · subst hj
        exact List.find?_cons_of_pos _ (by simp)
      · rw [List.find?_cons_of_neg _ (by simpa using hx j hj)]
        exact ih hxs j hj

/-- C10: whenever a worker iteration picks a job and raises no exception,
that job ends in state done with result equal to the constant string
"Job completed successfully", whatever its payload — the recorded result is
identical for every job. -/
theorem C10_worker_result_constant (ws : WorkerState) (t : Int) (j : Job)
    (hnd : ws.store.jobs.Pairwise (fun a b => a.id ≠ b.id))
    (hpick : pick_next_job ws.store = some j) :
    get_job_by_id (worker_iteration .ok ws t).1.store j.id =
      some { j with state := "done",
                    result := some "Job completed successfully",
                    last_served := some t } := by
  have hmem : j ∈ ws.store.jobs :=
    (List.mem_filter.mp (minBySched_mem hpick)).1
  have hfind : get_job_by_id ws.store j.id = some j :=
    find?_id_of_mem _ hnd j hmem
  have hw : (worker_iteration .ok ws t).1.store =
      mark_job_done (mark_job_running ws.store j.id) j.id
        "Job completed successfully" t := by
    unfold worker_iteration
    rw [hpick]
  rw [hw, mark_job_done, mark_job_running,
    get_job_by_id_updateJob, get_job_by_id_updateJob, hfind]
  · simp
  · intro x
    rfl
  · intro x
    rfl

/-- Closed instance of C10 at the demo store: the first job ends done with
the constant result string. -/
theorem C10_worker_result_constant_witness :
    get_job_by_id
        (worker_iteration .ok { store := demoStore, jobVar := none } 7).1.store
        demoJ1.id =
      some { demoJ1 with state := "done",
                         result := some "Job completed successfully",
                         last_served := some 7 } :=
  C10_worker_result_constant { store := demoStore, jobVar := none } 7 demoJ1
    (by decide) rfl

theorem getCount_setEntry_self :
    ∀ (m : List (String × Nat)) (k : String) (v : Nat),
      getCount (setEntry m k v) k = v := by
  intro m k v
  induction m with
  | nil => simp [setEntry, getCount]
  | cons p rest ih =>
      obtain ⟨k2, v2⟩ := p
      rw [setEntry]
      by_cases h : k2 = k
      · rw [if_pos h]
        simp [getCount]
      · rw [if_neg h, getCount,
          List.find?_cons_of_neg _ (by simpa using h)]
        exact ih

theorem getCount_setEntry_ne :
    ∀ (m : List (String × Nat)) (k k1 : String) (v : Nat), k1 ≠ k →
      getCount (setEntry m k v) k1 = getCount m k1 := by
  intro m k k1 v hne
  have hbeq : ¬ ((k == k1) = true) := by
    simpa using fun hc => hne hc.symm
  induction m with
  | nil =>
      rw [setEntry, getCount, List.find?_cons_of_neg _ (by simpa using hbeq)]
      rfl
  | cons p rest ih =>
      obtain ⟨k2, v2⟩ := p
      rw [setEntry]
      by_cases h : k2 = k
      · subst h
        rw [if_pos rfl, getCount, getCount,
          List.find?_cons_of_neg _ (by simpa using hbeq),
          List.find?_cons_of_neg _ (by simpa using hbeq)]
      · rw [if_neg h]
        by_cases h1 : k2 = k1
        · rw [getCount, getCount,
            List.find?_cons_of_pos _ (by simpa using h1),
            List.find?_cons_of_pos _ (by simpa using h1)]
        · rw [getCount, getCount,
            List.find?_cons_of_neg _ (by simpa using h1),
            List.find?_cons_of_neg _ (by simpa using h1)]
          exact ih

theorem check_allow_state (L : RateLimiter) (u : String) (now : Int)
    (hwin : now - L.global_window_start < L.window)
    (hg : L.global_count < L.global_limit)
    (hu : getCount L.user_counters u < L.user_limit) :
    (check L u now).1 = none ∧
    (check L u now).2.global_count = L.global_count + 1 ∧
    (check L u now).2.global_window_start = L.global_window_start ∧
    (check L u now).2.window = L.window ∧
    (check L u now).2.global_limit = L.global_limit ∧
    (check L u now).2.user_limit = L.user_limit ∧
    getCount (check L u now).2.user_counters u =
      getCount L.user_counters u + 1 ∧
    (∀ v, v ≠ u → getCount (check L u now).2.user_counters v =
      getCount L.user_counters v) := by
  have hres : reset_window_if_needed L now = L :=
    if_neg (not_le.mpr hwin)
  rw [check, hres, if_neg (Nat.not_le.mpr hg), if_neg (Nat.not_le.mpr hu)]
  rw [increment_user]
  constructor
  · rfl
  split
  · exact ⟨rfl, rfl, rfl, rfl, rfl, getCount_setEntry_self _ _ _,
      fun v hv => getCount_setEntry_ne _ _ _ _ hv⟩
  · exact ⟨rfl, rfl, rfl, rfl, rfl, getCount_setEntry_self _ _ _,
      fun v hv => getCount_setEntry_ne _ _ _ _ hv⟩

theorem checkN_fresh (g u : Nat) (w now0 : Int) (hw : 0 < w) (v : String) :
    ∀ k, k ≤ g → k ≤ u →
      checkN v now0 k (initLimiter g u w now0) =
        { global_limit := g, user_limit := u, window := w,
          global_count := k, global_window_start := now0,
          user_counters := if k = 0 then [] else [(v, k)],
          user_window_start := if k = 0 then [] else [(v, now0)] } := by
  intro k
  induction k with
  | zero => intro _ _; rfl
  | succ k ih =>
      intro hkg hku
      have hstate := ih (Nat.le_of_succ_le hkg) (Nat.le_of_succ_le hku)
      rw [checkN, hstate]
      have h1 : ¬ (w ≤ (0 : Int)) := by omega
      have h2 : ¬ (g ≤ k) := by omega
      have h3 : ¬ (u ≤ k) := by omega
      by_cases hk : k = 0
      · subst hk
        simp [check, reset_window_if_needed, increment_user, getCount,
          setEntry, sub_self, h1, h2, h3]
      · simp [check, reset_window_if_needed, increment_user, getCount,
          setEntry, sub_self, h1, h2, h3, hk]

theorem check_reject_global (L : RateLimiter) (u : String) (now : Int)
    (hwin : now - L.global_window_start < L.window)
    (hg : L.global_limit ≤ L.global_count) :
    check L u now = (some global_limit_detail, L) := by
  have hres : reset_window_if_needed L now = L := if_neg (not_le.mpr hwin)
  rw [check, hres, if_pos hg]

theorem check_reject_user (L : RateLimiter) (u : String) (now : Int)
    (hwin : now - L.global_window_start < L.window)
    (hg : L.global_count < L.global_limit)
    (hu : L.user_limit ≤ getCount L.user_counters u) :
    check L u now = (some user_limit_detail, L) := by
  have hres : reset_window_if_needed L now = L := if_neg (not_le.mpr hwin)
  rw [check, hres, if_neg (Nat.not_le.mpr hg), if_pos hu]

theorem getCount_window_single (k : Nat) (v : String) :
    getCount (if k = 0 then [] else [(v, k)]) v = k := by
  by_cases hk : k = 0
  · simp [hk, getCount]
  · simp [hk, getCount]

/-- C4: within an unelapsed window, a check call is rejected with the
global-limit reason when the global counter has reached globalLimit (the
global check coming first, regardless of per-owner headroom); otherwise
rejected with the user-limit reason when the owner's counter has reached
userLimit (even with global headroom); otherwise admitted, incrementing the
global counter and exactly that owner's counter by 1; rejections leave the
limiter state unchanged.  In particular, from a fresh limiter with
userLimit = n (and global headroom n < m), one owner's first n attempts are
admitted and the (n+1)th is rejected as user-limited, and with
globalLimit = m (and per-owner headroom m < userLimit), the (m+1)th attempt
is rejected as global-limited. -/
theorem C4_rate_limiter_enforcement (L : RateLimiter) (u : String) (now : Int)
    (hwin : now - L.global_window_start < L.window) :
    (L.global_limit ≤ L.global_count →
      (check L u now).1 = some global_limit_detail ∧
      (check L u now).2 = L) ∧
    (L.global_count < L.global_limit →
      L.user_limit ≤ getCount L.user_counters u →
      (check L u now).1 = some user_limit_detail ∧
      (check L u now).2 = L) ∧
    (L.global_count < L.global_limit →
      getCount L.user_counters u < L.user_limit →
      (check L u now).1 = none ∧
      (check L u now).2.global_count = L.global_count + 1 ∧
      getCount (check L u now).2.user_counters u =
        getCount L.user_counters u + 1 ∧
      (∀ v2, v2 ≠ u → getCount (check L u now).2.user_counters v2 =
        getCount L.user_counters v2)) ∧
    (∀ (n m : Nat) (w t0 : Int) (v : String), n < m → 0 < w →
      (∀ k, k < n →
        (check (checkN v t0 k (initLimiter m n w t0)) v t0).1 = none) ∧
      (check (checkN v t0 n (initLimiter m n w t0)) v t0).1 =
        some user_limit_detail) ∧
    (∀ (m ul : Nat) (w t0 : Int) (v : String), m < ul → 0 < w →
      (check (checkN v t0 m (initLimiter m ul w t0)) v t0).1 =
        some global_limit_detail) := by
  refine ⟨?_, ?_, ?_, ?_, ?_⟩
  · intro hg
    rw [check_reject_global L u now hwin hg]
    exact ⟨rfl, rfl⟩
  · intro hg hu
    rw [check_reject_user L u now hwin hg hu]
    exact ⟨rfl, rfl⟩
  · intro hg hu
    obtain ⟨ha, hb, _, _, _, _, hc, hd⟩ := check_allow_state L u now hwin hg hu
    exact ⟨ha, hb, hc, hd⟩
  · intro n m w t0 v hnm hw
    constructor
    · intro k hk
      rw [checkN_fresh m n w t0 hw v k (by omega) (by omega)]
      exact (check_allow_state _ v t0 (by simp; omega) (by simp; omega)
        (by simp [getCount_window_single]; omega)).1
    · rw [checkN_fresh m n w t0 hw v n (by omega) (le_refl n),
        check_reject_user _ v t0 (by simp; omega) (by simp; omega)
          (by simp [getCount_window_single])]
  · intro m ul w t0 v hm hw
    rw [checkN_fresh m ul w t0 hw v m (le_refl m) (by omega),
      check_reject_global _ v t0 (by simp; omega) (by simp)]

/-- Closed instance of C4: with userLimit 1 and globalLimit 2, one owner's
second attempt in the window is rejected with the user-limit reason. -/
theorem C4_rate_limiter_enforcement_witness :
    (check (checkN "alice" 0 1 (initLimiter 2 1 60 0)) "alice" 0).1 =
      some user_limit_detail :=
  (((C4_rate_limiter_enforcement (initLimiter 2 1 60 0) "alice" 0
    (by decide)).2.2.2.1 1 2 60 0 "alice" (by decide) (by decide)).2)

theorem submit_spec (digest : String → String) (s : JobStore)
    (L : RateLimiter) (u p : String) (t : Int) :
    (∀ e, s.jobs.find? (fun j => j.idempotency_key == digest p) = some e →
      submit_job digest s L u p t =
        ({ job_id := e.id, state := e.state, result := e.result,
           error_message := e.error_message }, s, L)) ∧
    (s.jobs.find? (fun j => j.idempotency_key == digest p) = none →
      (∀ err L1, check L u t = (some err, L1) →
        submit_job digest s L u p t =
          ({ job_id := s.nextId, state := "failed", result := none,
             error_message := some err },
           mark_job_failed (create_new_job s u p (digest p)).2 s.nextId err,
           L1)) ∧
      (∀ L1, check L u t = (none, L1) →
        submit_job digest s L u p t =
          ({ job_id := s.nextId, state := "queued", result := none,
             error_message := none },
           (create_new_job s u p (digest p)).2, L1))) := by
  constructor
  · intro e hfind
    simp only [submit_job, check_idempotency, hfind]
  · intro hfind
    constructor
    · intro err L1 hchk
      simp only [submit_job, check_idempotency, hfind, hchk,
        create_new_job]
    · intro L1 hchk
      simp only [submit_job, check_idempotency, hfind, hchk,
        create_new_job]

theorem markg_id (jid : Nat) (err : String) (j : Job) :
    (if j.id = jid
      then { j with state := "failed", error_message := some err }
      else j).id = j.id := by
  by_cases h : j.id = jid <;> simp [h]

theorem markg_key (jid : Nat) (err : String) (j : Job) :
    (if j.id = jid
      then { j with state := "failed", error_message := some err }
      else j).idempotency_key = j.idempotency_key := by
  by_cases h : j.id = jid <;> simp [h]

theorem find?_key_mark_failed (s : JobStore) (jid : Nat) (err key : String) :
    (mark_job_failed s jid err).jobs.find?
        (fun j => j.idempotency_key == key) =
      Option.map
        (fun j => if j.id = jid
          then { j with state := "failed", error_message := some err }
          else j)
        (s.jobs.find? (fun j => j.idempotency_key == key)) := by
  show List.find? _ (s.jobs.map _) = _
  rw [List.find?_map]
  have hp : ((fun j : Job => j.idempotency_key == key) ∘
      (fun j => if j.id = jid
        then { j with state := "failed", error_message := some err }
        else j)) = (fun j : Job => j.idempotency_key == key) := by
    funext j
    by_cases h : j.id = jid <;> simp [h]
  rw [hp]

theorem find?_key_create (s : JobStore) (u p key : String)
    (hnone : s.jobs.find? (fun j => j.idempotency_key == key) = none) :
    (create_new_job s u p key).2.jobs.find?
        (fun j => j.idempotency_key == key) =
      some (create_new_job s u p key).1 := by
  show List.find? _ (s.jobs ++ [(create_new_job s u p key).1]) = _
  rw [List.find?_append, hnone]
  rw [List.find?_cons_of_pos _ (by simp [create_new_job])]
  rfl

theorem submit_mem_key (digest : String → String) (s : JobStore)
    (L : RateLimiter) (u p : String) (t : Int) :
    ∃ j, j ∈ (submit_job digest s L u p t).2.1.jobs ∧
      j.id = (submit_job digest s L u p t).1.job_id ∧
      j.idempotency_key = digest p := by
  obtain ⟨hdup, hnew⟩ := submit_spec digest s L u p t
  cases hfind : s.jobs.find? (fun j => j.idempotency_key == digest p) with
  | some e =>
      simp only [hdup e hfind]
      exact ⟨e, List.mem_of_find?_eq_some hfind, rfl,
        by simpa using List.find?_some hfind⟩
  | none =>
      obtain ⟨hrej, hadm⟩ := hnew hfind
      rcases hchk : check L u t with ⟨re, L1⟩
      cases re with
      | some err =>
          simp only [hrej err L1 hchk]
          refine ⟨{ id := s.nextId, user_id := u, payload := p,
                    idempotency_key := digest p, state := "failed",
                    result := none, error_message := some err,
                    last_served := none }, ?_, rfl, rfl⟩
          show _ ∈ List.map _ (s.jobs ++ [(create_new_job s u p (digest p)).1])
          exact List.mem_map.mpr ⟨(create_new_job s u p (digest p)).1,
            List.mem_append.mpr (Or.inr (List.mem_singleton.mpr rfl)),
            by simp [create_new_job]⟩
      | none =>
          simp only [hadm L1 hchk]
          exact ⟨(create_new_job s u p (digest p)).1,
            List.mem_append.mpr (Or.inr (List.mem_singleton.mpr rfl)),
            rfl, rfl⟩

theorem submit_extends (digest : String → String) (s : JobStore)
    (L : RateLimiter) (u p : String) (t : Int) :
    ∀ j0 ∈ s.jobs, ∃ j1, j1 ∈ (submit_job digest s L u p t).2.1.jobs ∧
      j1.id = j0.id ∧ j1.idempotency_key = j0.idempotency_key := by
  intro j0 hj0
  obtain ⟨hdup, hnew⟩ := submit_spec digest s L u p t
  cases hfind : s.jobs.find? (fun j => j.idempotency_key == digest p) with
  | some e =>
      simp only [hdup e hfind]
      exact ⟨j0, hj0, rfl, rfl⟩
  | none =>
      obtain ⟨hrej, hadm⟩ := hnew hfind
      rcases hchk : check L u t with ⟨re, L1⟩
      cases re with
      | some err =>
          simp only [hrej err L1 hchk]
          refine ⟨if j0.id = s.nextId
              then { j0 with state := "failed", error_message := some err }
              else j0, ?_, markg_id _ _ _, markg_key _ _ _⟩
          show _ ∈ List.map _ (s.jobs ++ [(create_new_job s u p (digest p)).1])
          exact List.mem_map.mpr ⟨j0, List.mem_append.mpr (Or.inl hj0), rfl⟩
      | none =>
          simp only [hadm L1 hchk]
          exact ⟨j0, List.mem_append.mpr (Or.inl hj0), rfl, rfl⟩

theorem submit_WF (digest : String → String) (s : JobStore)
    (L : RateLimiter) (u p : String) (t : Int) (hwf : StoreWF s) :
    StoreWF (submit_job digest s L u p t).2.1 := by
  obtain ⟨hbound, hpair⟩ := hwf
  have hpair2 : (s.jobs ++ [(create_new_job s u p (digest p)).1]).Pairwise
      (fun a b => a.id ≠ b.id) := by
    rw [List.pairwise_append]
    refine ⟨hpair, List.pairwise_singleton _ _, ?_⟩
    intro a ha b hb
    rw [List.mem_singleton] at hb
    subst hb
    exact Nat.ne_of_lt (hbound a ha)
  have hbound2 : ∀ j ∈ s.jobs ++ [(create_new_job s u p (digest p)).1],
      j.id < s.nextId + 1 := by
    intro j hj
    rcases List.mem_append.mp hj with hj | hj
    · exact Nat.lt_succ_of_lt (hbound j hj)
    · rw [List.mem_singleton] at hj
      subst hj
      exact Nat.lt_succ_self _
  obtain ⟨hdup, hnew⟩ := submit_spec digest s L u p t
  cases hfind : s.jobs.find? (fun j => j.idempotency_key == digest p) with
  | some e =>
      simp only [hdup e hfind]
      exact ⟨hbound, hpair⟩
  | none =>
      obtain ⟨hrej, hadm⟩ := hnew hfind
      rcases hchk : check L u t with ⟨re, L1⟩
      cases re with
      | some err =>
          simp only [hrej err L1 hchk]
          constructor
          · intro j hj
            obtain ⟨x, hx, hgx⟩ := List.mem_map.mp hj
            have : j.id = x.id := by rw [← hgx]; exact markg_id _ _ _
            rw [this]
            exact hbound2 x hx
          · exact List.Pairwise.map _
              (fun a b h => by rw [markg_id, markg_id]; exact h) hpair2
      | none =>
          simp only [hadm L1 hchk]
          exact ⟨hbound2, hpair2⟩

/-- C1, counterexample to the duplicate being reported: the endpoint's
response schema (job_schema.py, JobStatusResponse) has no is_duplicate
field — pydantic drops the controller's is_duplicate keyword — so at this
concrete input the response to the duplicate second submission of "pay" is
identical, field for field, to the response of the first submission:
nothing reports the call as a duplicate. -/
theorem C1_no_duplicate_flag_counterexample :
    (submit_job (fun x => x)
        (submit_job (fun x => x) idleStore (initLimiter 5 5 60 0)
          "alice" "pay" 0).2.1
        (submit_job (fun x => x) idleStore (initLimiter 5 5 60 0)
          "alice" "pay" 0).2.2 "bob" "pay" 1).1 =
      (submit_job (fun x => x) idleStore (initLimiter 5 5 60 0)
        "alice" "pay" 0).1 := rfl

/-- C1, amended: submitting the same payload a second time (same or
different owner, any store and any limiter state, exhausted or not) returns
the same job id as the first submission, leaves the job store untouched (no
second record) and leaves the rate limiter untouched (no global or per-owner
quota consumed) — but the response carries no is_duplicate indication, since
the response schema lacks that field; and for payloads p1 ≠ p2 (under an
injective digest and a well-formed store) the two submissions return
distinct job ids. -/
theorem C1_idempotent_submission (digest : String → String) (s : JobStore)
    (L : RateLimiter) (u1 u2 p : String) (t1 t2 : Int) :
    ((submit_job digest (submit_job digest s L u1 p t1).2.1
        (submit_job digest s L u1 p t1).2.2 u2 p t2).1.job_id =
      (submit_job digest s L u1 p t1).1.job_id ∧
     (submit_job digest (submit_job digest s L u1 p t1).2.1
        (submit_job digest s L u1 p t1).2.2 u2 p t2).2.1 =
      (submit_job digest s L u1 p t1).2.1 ∧
     (submit_job digest (submit_job digest s L u1 p t1).2.1
        (submit_job digest s L u1 p t1).2.2 u2 p t2).2.2 =
      (submit_job digest s L u1 p t1).2.2) ∧
    (∀ p1 p2 : String, Function.Injective digest → StoreWF s → p1 ≠ p2 →
      (submit_job digest (submit_job digest s L u1 p1 t1).2.1
         (submit_job digest s L u1 p1 t1).2.2 u2 p2 t2).1.job_id ≠
      (submit_job digest s L u1 p1 t1).1.job_id) := by
  constructor
  · obtain ⟨hdup, hnew⟩ := submit_spec digest s L u1 p t1
    cases hfind : s.jobs.find? (fun j => j.idempotency_key == digest p) with
    | some e =>
        obtain ⟨hdup2, _⟩ := submit_spec digest s L u2 p t2
        simp only [hdup e hfind, hdup2 e hfind]
        exact ⟨trivial, trivial, trivial⟩
    | none =>
        obtain ⟨hrej, hadm⟩ := hnew hfind
        rcases hchk : check L u1 t1 with ⟨re, L1⟩
        cases re with
        | some err =>
            have hf2 : (mark_job_failed (create_new_job s u1 p (digest p)).2
                s.nextId err).jobs.find?
                  (fun j => j.idempotency_key == digest p) =
                some { id := s.nextId, user_id := u1, payload := p,
                       idempotency_key := digest p, state := "failed",
                       result := none, error_message := some err,
                       last_served := none } := by
              rw [find?_key_mark_failed,
                find?_key_create s u1 p (digest p) hfind]
              simp [create_new_job]
            obtain ⟨hdup2, _⟩ := submit_spec digest
              (mark_job_failed (create_new_job s u1 p (digest p)).2
                s.nextId err) L1 u2 p t2
            simp only [hrej err L1 hchk, hdup2 _ hf2]
            exact ⟨trivial, trivial, trivial⟩
        | none =>
            have hf2 := find?_key_create s u1 p (digest p) hfind
            obtain ⟨hdup2, _⟩ := submit_spec digest
              (create_new_job s u1 p (digest p)).2 L1 u2 p t2
            simp only [hadm L1 hchk, hdup2 _ hf2]
            exact ⟨rfl, trivial, trivial⟩
  · intro p1 p2 hinj hwf hne
    obtain ⟨j1, hj1mem, hj1id, hj1key⟩ := submit_mem_key digest s L u1 p1 t1
    obtain ⟨j2, hj2mem, hj2id, hj2key⟩ := submit_mem_key digest
      (submit_job digest s L u1 p1 t1).2.1
      (submit_job digest s L u1 p1 t1).2.2 u2 p2 t2
    obtain ⟨j1b, hj1bmem, hj1bid, hj1bkey⟩ := submit_extends digest
      (submit_job digest s L u1 p1 t1).2.1
      (submit_job digest s L u1 p1 t1).2.2 u2 p2 t2 j1 hj1mem
    have hwf2 : StoreWF (submit_job digest
        (submit_job digest s L u1 p1 t1).2.1
        (submit_job digest s L u1 p1 t1).2.2 u2 p2 t2).2.1 :=
      submit_WF _ _ _ _ _ _ (submit_WF _ _ _ _ _ _ hwf)
    have hkeyne : j1b.idempotency_key ≠ j2.idempotency_key := by
      rw [hj1bkey, hj1key, hj2key]
      exact fun h => hne (hinj h)
    have hjobne : j1b ≠ j2 := fun h => hkeyne (h ▸ rfl)
    have hidne : j1b.id ≠ j2.id :=
      hwf2.2.forall (fun a b h => h.symm) hj1bmem hj2mem hjobne
    rw [← hj2id, ← hj1id, ← hj1bid]
    exact fun h => hidne h.symm

/-- Closed instance of the amended C1: a repeated submission of "pay"
returns the same job id and leaves the store unchanged, and submissions of
"p1" then "p2" get distinct job ids. -/
theorem C1_idempotent_submission_witness :
    (submit_job (fun x => x)
        (submit_job (fun x => x) idleStore (initLimiter 5 5 60 0)
          "alice" "pay" 0).2.1
        (submit_job (fun x => x) idleStore (initLimiter 5 5 60 0)
          "alice" "pay" 0).2.2 "bob" "pay" 1).1.job_id =
      (submit_job (fun x => x) idleStore (initLimiter 5 5 60 0)
        "alice" "pay" 0).1.job_id ∧
    (submit_job (fun x => x)
        (submit_job (fun x => x) idleStore (initLimiter 5 5 60 0)
          "alice" "pay" 0).2.1
        (submit_job (fun x => x) idleStore (initLimiter 5 5 60 0)
          "alice" "pay" 0).2.2 "bob" "pay" 1).2.1 =
      (submit_job (fun x => x) idleStore (initLimiter 5 5 60 0)
        "alice" "pay" 0).2.1 ∧
    (submit_job (fun x => x)
        (submit_job (fun x => x) idleStore (initLimiter 5 5 60 0)
          "alice" "p1" 0).2.1
        (submit_job (fun x => x) idleStore (initLimiter 5 5 60 0)
          "alice" "p1" 0).2.2 "bob" "p2" 1).1.job_id ≠
      (submit_job (fun x => x) idleStore (initLimiter 5 5 60 0)
        "alice" "p1" 0).1.job_id := by
  have hwf : StoreWF idleStore :=
    ⟨fun j hj => absurd hj (List.not_mem_nil j), List.Pairwise.nil⟩
  exact ⟨(C1_idempotent_submission (fun x => x) idleStore
      (initLimiter 5 5 60 0) "alice" "bob" "pay" 0 1).1.1,
    (C1_idempotent_submission (fun x => x) idleStore
      (initLimiter 5 5 60 0) "alice" "bob" "pay" 0 1).1.2.1,
    (C1_idempotent_submission (fun x => x) idleStore
      (initLimiter 5 5 60 0) "alice" "bob" "pay" 0 1).2 "p1" "p2"
      (fun a b h => h) hwf (by decide)⟩

/-- C2: a submission with a fresh payload whose owner is rejected by the
rate limiter still creates a job record — appended to the store and
immediately transitioned to failed with the rejection reason as its error —
and returns that job's id with state failed (a job id, not a synchronous
rate-limit error). -/
theorem C2_rate_limited_submission (digest : String → String) (s : JobStore)
    (L : RateLimiter) (u p : String) (t : Int) (err : String)
    (hwf : ∀ j ∈ s.jobs, j.id < s.nextId)
    (hnew : ∀ j ∈ s.jobs, j.idempotency_key ≠ digest p)
    (hrej : (check L u t).1 = some err) :
    (submit_job digest s L u p t).1.job_id = s.nextId ∧
    (submit_job digest s L u p t).1.state = "failed" ∧
    (submit_job digest s L u p t).1.error_message = some err ∧
    (submit_job digest s L u p t).2.1.jobs =
      s.jobs ++
        [{ id := s.nextId, user_id := u, payload := p,
           idempotency_key := digest p, state := "failed", result := none,
           error_message := some err, last_served := none }] ∧
    (submit_job digest s L u p t).2.1.nextId = s.nextId + 1 := by
  have hfind : s.jobs.find? (fun j => j.idempotency_key == digest p) =
      none :=
    List.find?_eq_none.mpr (fun x hx => by simpa using hnew x hx)
  have hchk : check L u t = (some err, (check L u t).2) :=
    Prod.ext hrej rfl
  have heq := ((submit_spec digest s L u p t).2 hfind).1 err
    (check L u t).2 hchk
  rw [heq]
  refine ⟨rfl, rfl, rfl, ?_, rfl⟩
  show ((s.jobs ++ [(create_new_job s u p (digest p)).1]).map _) = _
  rw [List.map_append]
  have hleft : s.jobs.map
      (fun j => if j.id = s.nextId
        then { j with state := "failed", error_message := some err }
        else j) = s.jobs := by
    have := List.map_congr_left (l := s.jobs)
      (f := fun j => if j.id = s.nextId
        then { j with state := "failed", error_message := some err }
        else j) (g := id)
      (fun a ha => by simp [id, Nat.ne_of_lt (hwf a ha)])
    rw [this, List.map_id]
  rw [hleft]
  simp [create_new_job]

/-- Closed instance of C2: on an exhausted limiter (globalLimit 0) a fresh
payload still yields a stored job in state failed carrying the rejection
reason. -/
theorem C2_rate_limited_submission_witness :
    (submit_job (fun x => x) idleStore (initLimiter 0 5 60 0)
        "alice" "pay" 0).1.state = "failed" ∧
    (submit_job (fun x => x) idleStore (initLimiter 0 5 60 0)
        "alice" "pay" 0).2.1.jobs =
      [{ id := 1, user_id := "alice", payload := "pay",
         idempotency_key := "pay", state := "failed", result := none,
         error_message := some global_limit_detail, last_served := none }] := by
  have h := C2_rate_limited_submission (fun x => x) idleStore
    (initLimiter 0 5 60 0) "alice" "pay" 0 global_limit_detail
    (fun j hj => absurd hj (List.not_mem_nil j))
    (fun j hj => absurd hj (List.not_mem_nil j)) rfl
  exact ⟨h.2.1, h.2.2.2.1⟩

theorem mem_id_unique {l : List Job}
    (hp : l.Pairwise (fun a b => a.id ≠ b.id)) {a b : Job}
    (ha : a ∈ l) (hb : b ∈ l) (hid : a.id = b.id) : a = b := by
  by_contra hne
  exact (hp.forall (fun x y hxy => hxy.symm) ha hb hne) hid

theorem StoreWF_of_jobs_map (s s1 : JobStore) (f : Job → Job)
    (hjobs : s1.jobs = s.jobs.map f) (hnext : s1.nextId = s.nextId)
    (hf : ∀ j, (f j).id = j.id) (hwf : StoreWF s) : StoreWF s1 := by
  obtain ⟨hb, hp⟩ := hwf
  constructor
  · intro j hj
    rw [hjobs] at hj
    obtain ⟨x, hx, hfx⟩ := List.mem_map.mp hj
    rw [hnext, ← hfx, hf]
    exact hb x hx
  · rw [hjobs]
    exact List.Pairwise.map _ (fun a b hab => by rw [hf, hf]; exact hab) hp

theorem stepAllowed_refl (recov : Bool) (a : String) :
    stepAllowed recov a a :=
  ⟨fun hq => Or.inl hq, fun hr => Or.inl hr, fun hd => hd, fun hf => hf⟩

theorem stateInv_queued {j : Job} (hq : j.state = "queued")
    (hr : j.result = none) (he : j.error_message = none) : stateInv j := by
  refine ⟨Or.inl hq, fun _ => ⟨hr, he⟩, fun hd => ?_, fun hf => ?_⟩
  · rw [hq] at hd
    exact absurd hd (by decide)
  · rw [hq] at hf
    exact absurd hf (by decide)

theorem stateInv_done {j : Job} (hd : j.state = "done")
    (hr : j.result ≠ none) (he : j.error_message = none) : stateInv j := by
  refine ⟨Or.inr (Or.inr (Or.inl hd)), fun hqr => ?_, fun _ => ⟨hr, he⟩,
    fun hf => ?_⟩
  · rcases hqr with hq | hrn
    · rw [hd] at hq
      exact absurd hq (by decide)
    · rw [hd] at hrn
      exact absurd hrn (by decide)
  · rw [hd] at hf
    exact absurd hf (by decide)

theorem stateInv_failed {j : Job} (hf : j.state = "failed")
    (he : j.error_message ≠ none) (hr : j.result = none) : stateInv j := by
  refine ⟨Or.inr (Or.inr (Or.inr hf)), fun hqr => ?_, fun hd => ?_,
    fun _ => ⟨he, hr⟩⟩
  · rcases hqr with hq | hrn
    · rw [hf] at hq
      exact absurd hq (by decide)
    · rw [hf] at hrn
      exact absurd hrn (by decide)
  · rw [hf] at hd
    exact absurd hd (by decide)

theorem submit_jobs_origin (digest : String → String) (s : JobStore)
    (L : RateLimiter) (u p : String) (t : Int)
    (hbound : ∀ j ∈ s.jobs, j.id < s.nextId) :
    ∀ j1 ∈ (submit_job digest s L u p t).2.1.jobs,
      j1 ∈ s.jobs ∨
      (j1.id = s.nextId ∧ j1.result = none ∧
        ((j1.state = "queued" ∧ j1.error_message = none) ∨
         (∃ e, j1.state = "failed" ∧ j1.error_message = some e))) := by
  intro j1 hj1
  obtain ⟨hdup, hnew⟩ := submit_spec digest s L u p t
  cases hfind : s.jobs.find? (fun j => j.idempotency_key == digest p) with
  | some e =>
      rw [hdup e hfind] at hj1
      exact Or.inl hj1
  | none =>
      obtain ⟨hrej, hadm⟩ := hnew hfind
      rcases hchk : check L u t with ⟨re, L1⟩
      cases re with
      | some err =>
          rw [hrej err L1 hchk] at hj1
          have hj1b : j1 ∈
              (s.jobs ++ [(create_new_job s u p (digest p)).1]).map
                (fun j => if j.id = s.nextId
                  then { j with state := "failed",
                                error_message := some err }
                  else j) := hj1
          obtain ⟨x, hx, hfx⟩ := List.mem_map.mp hj1b
          rcases List.mem_append.mp hx with hxs | hxn
          · left
            rw [← hfx, if_neg (Nat.ne_of_lt (hbound x hxs))]
            exact hxs
          · right
            rw [List.mem_singleton] at hxn
            subst hxn
            rw [← hfx, if_pos (show (create_new_job s u p (digest p)).1.id =
              s.nextId from rfl)]
            exact ⟨rfl, rfl, Or.inr ⟨err, rfl, rfl⟩⟩
      | none =>
          rw [hadm L1 hchk] at hj1
          have hj1b : j1 ∈ s.jobs ++ [(create_new_job s u p (digest p)).1] :=
            hj1
          rcases List.mem_append.mp hj1b with hxs | hxn
          · exact Or.inl hxs
          · rw [List.mem_singleton] at hxn
            subst hxn
            exact Or.inr ⟨rfl, rfl, Or.inl ⟨rfl, rfl⟩⟩

theorem worker_iter_store_ok_none (ws : WorkerState) (t : Int)
    (hpick : pick_next_job ws.store = none) :
    (worker_iteration .ok ws t).1.store = ws.store := by
  unfold worker_iteration
  rw [hpick]

theorem worker_iter_store_ok_some (ws : WorkerState) (t : Int) (jp : Job)
    (hpick : pick_next_job ws.store = some jp) :
    (worker_iteration .ok ws t).1.store.jobs =
      ws.store.jobs.map (fun x => if x.id = jp.id
        then { x with state := "done",
                      result := some "Job completed successfully",
                      last_served := some t }
        else x) := by
  have hw : (worker_iteration .ok ws t).1.store =
      mark_job_done (mark_job_running ws.store jp.id) jp.id
        "Job completed successfully" t := by
    unfold worker_iteration
    rw [hpick]
  rw [hw]
  show (ws.store.jobs.map _).map _ = _
  rw [List.map_map]
  apply List.map_congr_left
  intro x _
  by_cases h : x.id = jp.id <;> simp [Function.comp, h]

theorem worker_iter_store_pickraise (ws : WorkerState) (t : Int)
    (msg : String) :
    (worker_iteration (.raiseAtPick msg) ws t).1.store = ws.store := by
  obtain ⟨store, jv⟩ := ws
  rcases jv with _ | jv2
  · rfl
  · rcases jv2 with _ | jid <;> rfl

theorem worker_iter_store_exec_none (ws : WorkerState) (t : Int)
    (msg : String) (hpick : pick_next_job ws.store = none) :
    (worker_iteration (.raiseDuringExec msg) ws t).1.store = ws.store := by
  unfold worker_iteration
  rw [hpick]

theorem worker_iter_store_exec_some (ws : WorkerState) (t : Int)
    (msg : String) (jp : Job)
    (hpick : pick_next_job ws.store = some jp) :
    (worker_iteration (.raiseDuringExec msg) ws t).1.store.jobs =
      ws.store.jobs.map (fun x => if x.id = jp.id
        then { x with state := "failed", error_message := some msg }
        else x) := by
  have hw : (worker_iteration (.raiseDuringExec msg) ws t).1.store =
      mark_job_failed (mark_job_running ws.store jp.id) jp.id msg := by
    unfold worker_iteration
    rw [hpick]
  rw [hw]
  show (ws.store.jobs.map _).map _ = _
  rw [List.map_map]
  apply List.map_congr_left
  intro x _
  by_cases h : x.id = jp.id <;> simp [Function.comp, h]

theorem worker_iter_nextId (ev : WorkerEvent) (ws : WorkerState) (t : Int) :
    (worker_iteration ev ws t).1.store.nextId = ws.store.nextId := by
  cases ev with
  | ok =>
      cases hpick : pick_next_job ws.store with
      | none => rw [worker_iter_store_ok_none ws t hpick]
      | some jp =>
          have hw : (worker_iteration .ok ws t).1.store =
              mark_job_done (mark_job_running ws.store jp.id) jp.id
                "Job completed successfully" t := by
            unfold worker_iteration
            rw [hpick]
          rw [hw]
          rfl
  | raiseAtPick msg => rw [worker_iter_store_pickraise ws t msg]
  | raiseDuringExec msg =>
      cases hpick : pick_next_job ws.store with
      | none => rw [worker_iter_store_exec_none ws t msg hpick]
      | some jp =>
          have hw : (worker_iteration (.raiseDuringExec msg) ws t).1.store =
              mark_job_failed (mark_job_running ws.store jp.id) jp.id msg := by
            unfold worker_iteration
            rw [hpick]
          rw [hw]
          rfl

theorem sysInv_step (digest : String → String) (st : SysState) (op : SysOp)
    (h : SysInv st.store) :
    SysInv (sysStep digest op st).store ∧
    ∀ j ∈ st.store.jobs, ∀ j1 ∈ (sysStep digest op st).store.jobs,
      j1.id = j.id → stepAllowed (isRecovery op) j.state j1.state := by
  obtain ⟨hwf, hstates⟩ := h
  cases op with
  | submitOp u p t =>
      constructor
      · refine ⟨submit_WF digest st.store st.limiter u p t hwf, ?_⟩
        intro j1 hj1
        rcases submit_jobs_origin digest st.store st.limiter u p t hwf.1
            j1 hj1 with hold | ⟨_, hres, hst⟩
        · exact hstates j1 hold
        · rcases hst with ⟨hq, he⟩ | ⟨e, hfst, he⟩
          · exact stateInv_queued hq hres he
          · exact stateInv_failed hfst
              (by rw [he]; exact fun hc => Option.noConfusion hc) hres
      · intro j hj j1 hj1 hid
        rcases submit_jobs_origin digest st.store st.limiter u p t hwf.1
            j1 hj1 with hold | ⟨hidn, _, _⟩
        · rw [mem_id_unique hwf.2 hold hj hid]
          exact stepAllowed_refl _ _
        · have hcontra : j.id = st.store.nextId := by
            rw [← hid]
            exact hidn
          exact absurd hcontra (Nat.ne_of_lt (hwf.1 j hj))
  | workerStep ev t =>
      cases ev with
      | ok =>
          cases hpick : pick_next_job st.store with
          | none =>
              have hst : (sysStep digest (.workerStep .ok t) st).store =
                  st.store :=
                worker_iter_store_ok_none
                  { store := st.store, jobVar := st.jobVar } t hpick
              rw [hst]
              refine ⟨⟨hwf, hstates⟩, ?_⟩
              intro j hj j1 hj1 hid
              rw [mem_id_unique hwf.2 hj1 hj hid]
              exact stepAllowed_refl _ _
          | some jp =>
              have hjpf := List.mem_filter.mp (minBySched_mem hpick)
              have hjp_mem : jp ∈ st.store.jobs := hjpf.1
              have hjp_q : jp.state = "queued" := by simpa using hjpf.2
              have hjobs : (sysStep digest (.workerStep .ok t) st).store.jobs
                  = st.store.jobs.map (fun x => if x.id = jp.id
                      then { x with state := "done",
                                    result := some "Job completed successfully",
                                    last_served := some t }
                      else x) :=
                worker_iter_store_ok_some
                  { store := st.store, jobVar := st.jobVar } t jp hpick
              have hfid : ∀ x : Job,
                  ((if x.id = jp.id
                    then { x with state := "done",
                                  result := some "Job completed successfully",
                                  last_served := some t }
                    else x) : Job).id = x.id := by
                intro x
                by_cases hx : x.id = jp.id <;> simp [hx]
              have hwf2 : StoreWF (sysStep digest (.workerStep .ok t) st).store :=
                StoreWF_of_jobs_map st.store _ _ hjobs
                  (worker_iter_nextId .ok
                    { store := st.store, jobVar := st.jobVar } t) hfid hwf
              refine ⟨⟨hwf2, ?_⟩, ?_⟩
              · intro j1 hj1
                rw [hjobs] at hj1
                obtain ⟨x, hx, hfx⟩ := List.mem_map.mp hj1
                by_cases hxid : x.id = jp.id
                · have hxq : x.state = "queued" := by
                    rw [mem_id_unique hwf.2 hx hjp_mem hxid]
                    exact hjp_q
                  obtain ⟨hresx, herrx⟩ := (hstates x hx).2.1 (Or.inl hxq)
                  rw [← hfx, if_pos hxid]
                  exact stateInv_done rfl (fun hc => Option.noConfusion hc)
                    herrx
                · rw [← hfx, if_neg hxid]
                  exact hstates x hx
              · intro j hj j1 hj1 hid
                rw [hjobs] at hj1
                obtain ⟨x, hx, hfx⟩ := List.mem_map.mp hj1
                have hxidj : x.id = j.id := by
                  rw [← hid, ← hfx]
                  exact (hfid x).symm
                have hxj : x = j := mem_id_unique hwf.2 hx hj hxidj
                subst hxj
                by_cases hjid : x.id = jp.id
                · have hjq : x.state = "queued" := by
                    rw [mem_id_unique hwf.2 hx hjp_mem hjid]
                    exact hjp_q
                  have hj1st : j1.state = "done" := by
                    rw [← hfx, if_pos hjid]
                  rw [hjq, hj1st]
                  simp [stepAllowed, isRecovery]
                · have hj1j : j1 = x := by
                    rw [← hfx, if_neg hjid]
                  rw [hj1j]
                  exact stepAllowed_refl _ _
      | raiseAtPick msg =>
          have hst : (sysStep digest (.workerStep (.raiseAtPick msg) t)
              st).store = st.store :=
            worker_iter_store_pickraise
              { store := st.store, jobVar := st.jobVar } t msg
          rw [hst]
          refine ⟨⟨hwf, hstates⟩, ?_⟩
          intro j hj j1 hj1 hid
          rw [mem_id_unique hwf.2 hj1 hj hid]
          exact stepAllowed_refl _ _
      | raiseDuringExec msg =>
          cases hpick : pick_next_job st.store with
          | none =>
              have hst : (sysStep digest
                  (.workerStep (.raiseDuringExec msg) t) st).store =
                  st.store :=
                worker_iter_store_exec_none
                  { store := st.store, jobVar := st.jobVar } t msg hpick
              rw [hst]
              refine ⟨⟨hwf, hstates⟩, ?_⟩
              intro j hj j1 hj1 hid
              rw [mem_id_unique hwf.2 hj1 hj hid]
              exact stepAllowed_refl _ _
          | some jp =>
              have hjpf := List.mem_filter.mp (minBySched_mem hpick)
              have hjp_mem : jp ∈ st.store.jobs := hjpf.1
              have hjp_q : jp.state = "queued" := by simpa using hjpf.2
              have hjobs : (sysStep digest
                  (.workerStep (.raiseDuringExec msg) t) st).store.jobs
                  = st.store.jobs.map (fun x => if x.id = jp.id
                      then { x with state := "failed",
                                    error_message := some msg }
                      else x) :=
                worker_iter_store_exec_some
                  { store := st.store, jobVar := st.jobVar } t msg jp hpick
              have hfid : ∀ x : Job,
                  ((if x.id = jp.id
                    then { x with state := "failed",
                                  error_message := some msg }
                    else x) : Job).id = x.id := by
                intro x
                by_cases hx : x.id = jp.id <;> simp [hx]
              have hwf2 : StoreWF (sysStep digest
                  (.workerStep (.raiseDuringExec msg) t) st).store :=
                StoreWF_of_jobs_map st.store _ _ hjobs
                  (worker_iter_nextId (.raiseDuringExec msg)
                    { store := st.store, jobVar := st.jobVar } t) hfid hwf
              refine ⟨⟨hwf2, ?_⟩, ?_⟩
              · intro j1 hj1
                rw [hjobs] at hj1
                obtain ⟨x, hx, hfx⟩ := List.mem_map.mp hj1
                by_cases hxid : x.id = jp.id
                · have hxq : x.state = "queued" := by
                    rw [mem_id_unique hwf.2 hx hjp_mem hxid]
                    exact hjp_q
                  obtain ⟨hresx, herrx⟩ := (hstates x hx).2.1 (Or.inl hxq)
                  rw [← hfx, if_pos hxid]
                  exact stateInv_failed rfl (fun hc => Option.noConfusion hc)
                    hresx
                · rw [← hfx, if_neg hxid]
                  exact hstates x hx
              · intro j hj j1 hj1 hid
                rw [hjobs] at hj1
                obtain ⟨x, hx, hfx⟩ := List.mem_map.mp hj1
                have hxidj : x.id = j.id := by
                  rw [← hid, ← hfx]
                  exact (hfid x).symm
                have hxj : x = j := mem_id_unique hwf.2 hx hj hxidj
                subst hxj
                by_cases hjid : x.id = jp.id
                · have hjq : x.state = "queued" := by
                    rw [mem_id_unique hwf.2 hx hjp_mem hjid]
                    exact hjp_q
                  have hj1st : j1.state = "failed" := by
                    rw [← hfx, if_pos hjid]
                  rw [hjq, hj1st]
                  simp [stepAllowed, isRecovery]
                · have hj1j : j1 = x := by
                    rw [← hfx, if_neg hjid]
                  rw [hj1j]
                  exact stepAllowed_refl _ _
  | recovery =>
      have hjobs : (sysStep digest .recovery st).store.jobs =
          st.store.jobs.map (fun x => if x.state = "running"
            then { x with state := "queued" } else x) := rfl
      have hfid : ∀ x : Job,
          ((if x.state = "running" then { x with state := "queued" }
            else x) : Job).id = x.id := by
        intro x
        by_cases hx : x.state = "running" <;> simp [hx]
      have hwf2 : StoreWF (sysStep digest .recovery st).store :=
        StoreWF_of_jobs_map st.store _ _ hjobs rfl hfid hwf
      refine ⟨⟨hwf2, ?_⟩, ?_⟩
      · intro j1 hj1
        rw [hjobs] at hj1
        obtain ⟨x, hx, hfx⟩ := List.mem_map.mp hj1
        by_cases hxr : x.state = "running"
        · obtain ⟨hresx, herrx⟩ := (hstates x hx).2.1 (Or.inr hxr)
          rw [← hfx, if_pos hxr]
          exact stateInv_queued rfl hresx herrx
        · rw [← hfx, if_neg hxr]
          exact hstates x hx
      · intro j hj j1 hj1 hid
        rw [hjobs] at hj1
        obtain ⟨x, hx, hfx⟩ := List.mem_map.mp hj1
        have hxidj : x.id = j.id := by
          rw [← hid, ← hfx]
          exact (hfid x).symm
        have hxj : x = j := mem_id_unique hwf.2 hx hj hxidj
        subst hxj
        by_cases hxr : x.state = "running"
        · have hj1st : j1.state = "queued" := by
            rw [← hfx, if_pos hxr]
          rw [hxr, hj1st]
          simp [stepAllowed, isRecovery]
        · have hj1j : j1 = x := by
            rw [← hfx, if_neg hxr]
          rw [hj1j]
          exact stepAllowed_refl _ _

/-- C6: over every sequence of the system's state-changing operations —
submissions (create_new_job, possibly followed by mark_job_failed), worker
iterations (mark_job_running then mark_job_done or mark_job_failed, under
any exception event), and restart recovery (reset_running_jobs_on_restart) —
each job's state only moves forward along queued → running → {done, failed}:
no operation moves a job out of done or failed, running → queued happens
only under the recovery operation, and the store invariant that result is
present exactly on done jobs and error exactly on failed jobs (both absent
while queued or running) is preserved from the empty initial store. -/
theorem C6_state_machine (digest : String → String) :
    (∀ (st : SysState) (op : SysOp), SysInv st.store →
      SysInv (sysStep digest op st).store) ∧
    (∀ (st : SysState) (op : SysOp), SysInv st.store →
      ∀ j ∈ st.store.jobs, ∀ j1 ∈ (sysStep digest op st).store.jobs,
        j1.id = j.id → stepAllowed (isRecovery op) j.state j1.state) ∧
    (∀ (ops : List SysOp) (st : SysState), SysInv st.store →
      SysInv (sysRun digest ops st).store) ∧
    SysInv idleStore := by
  refine ⟨fun st op h => (sysInv_step digest st op h).1,
    fun st op h => (sysInv_step digest st op h).2, ?_, ?_⟩
  · intro ops
    induction ops with
    | nil => intro st h; exact h
    | cons op ops ih =>
        intro st h
        exact ih (sysStep digest op st) (sysInv_step digest st op h).1
  · exact ⟨⟨fun j hj => absurd hj (List.not_mem_nil j), List.Pairwise.nil⟩,
      fun j hj => absurd hj (List.not_mem_nil j)⟩

/-- Closed instance of C6: running a concrete operation sequence — submit,
a successful worker iteration, a worker iteration whose pick raises, and
restart recovery — from the empty store keeps the store invariant. -/
theorem C6_state_machine_witness :
    SysInv (sysRun (fun x => x)
      [SysOp.submitOp "alice" "pay" 0, SysOp.workerStep .ok 5,
       SysOp.workerStep (.raiseAtPick "store unavailable") 6,
       SysOp.recovery]
      { store := idleStore, limiter := initLimiter 5 5 60 0,
        jobVar := none }).store :=
  (C6_state_machine (fun x => x)).2.2.1
    [SysOp.submitOp "alice" "pay" 0, SysOp.workerStep .ok 5,
     SysOp.workerStep (.raiseAtPick "store unavailable") 6,
     SysOp.recovery]
    { store := idleStore, limiter := initLimiter 5 5 60 0, jobVar := none }
    ⟨⟨fun j hj => absurd hj (List.not_mem_nil j), List.Pairwise.nil⟩,
     fun j hj => absurd hj (List.not_mem_nil j)⟩

end TicketQueue
